import Mathlib

/-!
Shallow embedding of `src/vector.h`: a raw-memory block manager (`RawMemory`)
under a typed dynamic array (`Vector`).

Element lifecycle is modelled explicitly: a buffer is a list of slots, where
`some x` is a live (constructed) element holding value `x` and `none` is
uninitialized (or destroyed) storage.  Every element operation of the C++
code (placement construction, assignment, destructor call, read) is a checked
step returning `Option`: `none` signals a lifecycle violation (constructing
over a live object, assigning to or destroying or reading uninitialized
storage) — undefined behavior in the original.  Moves and copies coincide at
the value level, so `std::uninitialized_move_n` and
`std::uninitialized_copy_n` share one model.

Addresses of allocated blocks are abstract: an allocating operation receives
the fresh address the allocator would return as an extra argument `a`
(`operator new` never returns null, so `alloc n a` has a non-null address
exactly when `n ≠ 0`, mirroring `RawMemory::Allocate`).
-/

namespace CppVec

variable {α : Type}

/-- One checked element-lifecycle step: placement construction
(`new (p) T(...)`) requires the slot to be uninitialized. -/
def constructAt (slots : List (Option α)) (i : Nat) (x : α) : Option (List (Option α)) :=
  match slots[i]? with
  | some none => some (slots.set i (some x))
  | _ => none

/-- Checked copy/move assignment (`*p = v`) requires a live destination. -/
def assignAt (slots : List (Option α)) (i : Nat) (x : α) : Option (List (Option α)) :=
  match slots[i]? with
  | some (some _) => some (slots.set i (some x))
  | _ => none

/-- Checked destructor call (`p->~T()`) requires a live object. -/
def destroyAt (slots : List (Option α)) (i : Nat) : Option (List (Option α)) :=
  match slots[i]? with
  | some (some _) => some (slots.set i none)
  | _ => none

/-- Checked read of a live element. -/
def readAt (slots : List (Option α)) (i : Nat) : Option α :=
  (slots[i]?).bind id

/-- Model of `std::uninitialized_copy_n(src + s, n, dst + d)` (and of
`std::uninitialized_move_n`, which is value-identical here): read `n` live
elements from `src` starting at `s` and construct them into uninitialized
slots of `dst` starting at `d`. -/
def uninitCopyN (src : List (Option α)) (s : Nat) (n : Nat)
    (dst : List (Option α)) (d : Nat) : Option (List (Option α)) :=
  match n with
  | 0 => some dst
  | Nat.succ m => do
      let x ← readAt src s
      let dst2 ← constructAt dst d x
      uninitCopyN src (s + 1) m dst2 (d + 1)

/-- Model of `std::uninitialized_move_n`; moves are value copies here. -/
def uninitMoveN (src : List (Option α)) (s : Nat) (n : Nat)
    (dst : List (Option α)) (d : Nat) : Option (List (Option α)) :=
  uninitCopyN src s n dst d

/-- Model of `std::copy_n(src + s, n, dst + d)`: element-wise assignment
into slots that must already be live. -/
def copyN (src : List (Option α)) (s : Nat) (n : Nat)
    (dst : List (Option α)) (d : Nat) : Option (List (Option α)) :=
  match n with
  | 0 => some dst
  | Nat.succ m => do
      let x ← readAt src s
      let dst2 ← assignAt dst d x
      copyN src (s + 1) m dst2 (d + 1)

/-- Model of `std::destroy_n(p + d, n)`. -/
def destroyN (slots : List (Option α)) (d : Nat) (n : Nat) : Option (List (Option α)) :=
  match n with
  | 0 => some slots
  | Nat.succ m => do
      let s2 ← destroyAt slots d
      destroyN s2 (d + 1) m

/-- Model of `std::move_backward(begin() + first, begin() + (first + n),
begin() + (first + n + 1))`: shift the range one slot to the right by
assignment, processing the highest index first (so overlapping is safe). -/
def moveBackShift1 (slots : List (Option α)) (first : Nat) : Nat → Option (List (Option α))
  | 0 => some slots
  | Nat.succ n => do
      let x ← readAt slots (first + n)
      let s2 ← assignAt slots (first + n + 1) x
      moveBackShift1 s2 first n

/-- Model of `std::move(begin() + (first + 1), begin() + (first + 1 + n),
begin() + first)`: shift the range one slot to the left by assignment,
processing the lowest index first. -/
def moveShiftLeft1 (slots : List (Option α)) (first : Nat) : Nat → Option (List (Option α))
  | 0 => some slots
  | Nat.succ n => do
      let x ← readAt slots (first + 1)
      let s2 ← assignAt slots first x
      moveShiftLeft1 s2 (first + 1) n

/-- Model of `std::uninitialized_value_construct_n(p + d, n)`:
default-construct `n` fresh elements. -/
def uninitValueConstructN [Inhabited α] (dst : List (Option α)) (d : Nat) :
    Nat → Option (List (Option α))
  | 0 => some dst
  | Nat.succ m => do
      let dst2 ← constructAt dst d (default : α)
      uninitValueConstructN dst2 (d + 1) m

/-- `RawMemory<T>`: an owning pointer to a block of uninitialized storage
plus its capacity.  `slots` models the contents of the owned block. -/
structure RawMemory (α : Type) where
  address : Option Nat
  capacity : Nat
  slots : List (Option α)
deriving DecidableEq

/-- Default-constructed `RawMemory`: `buffer_ = nullptr`, `capacity_ = 0`. -/
def RawMemory.nil : RawMemory α := ⟨none, 0, []⟩

/-- `RawMemory(size_t capacity)`: `Allocate` returns `nullptr` for 0 and a
fresh non-null address `a` otherwise; the block is uninitialized. -/
def RawMemory.alloc (n : Nat) (a : Nat) : RawMemory α :=
  ⟨if n = 0 then none else some a, n, List.replicate n none⟩

/-- `RawMemory(RawMemory&& other)`: `std::exchange`s the source's pointer to
null and capacity to 0.  Returns (constructed object, source afterwards). -/
def RawMemory.moveCtor (r : RawMemory α) : RawMemory α × RawMemory α :=
  (⟨r.address, r.capacity, r.slots⟩, RawMemory.nil)

/-- `RawMemory::operator=(RawMemory&& rhs)` for distinct objects:
`Swap(rhs); Deallocate(rhs.buffer_); rhs.capacity_ = 0;`.  After the swap
`rhs.buffer_` holds the destination's old pointer; `Deallocate` frees that
block but the pointer value stays stored in `rhs.buffer_` (the code never
nulls it).  Returns (destination afterwards, source afterwards). -/
def RawMemory.moveAssign (d s : RawMemory α) : RawMemory α × RawMemory α :=
  (⟨s.address, s.capacity, s.slots⟩, ⟨d.address, 0, []⟩)

/-- `RawMemory::Swap`. -/
def RawMemory.swap (r s : RawMemory α) : RawMemory α × RawMemory α := (s, r)

/-- The documented storage invariant: `capacity == 0 ⇔ address == null`. -/
def RawMemory.addrInv (r : RawMemory α) : Prop := r.capacity = 0 ↔ r.address = none

instance (r : RawMemory α) : Decidable r.addrInv := by
  unfold RawMemory.addrInv; infer_instance

/-- `Vector<T>`: an exclusively owned `RawMemory` plus the count of live
elements. -/
structure Vector (α : Type) where
  data : RawMemory α
  size : Nat
deriving DecidableEq

/-- Default-constructed `Vector`. -/
def Vector.nil : Vector α := ⟨RawMemory.nil, 0⟩

/-- `Vector::Capacity()`. -/
def Vector.capacity (v : Vector α) : Nat := v.data.capacity

/-- The value sequence held in the live prefix of the buffer. -/
def Vector.seq (v : Vector α) : List α :=
  (v.data.slots.take v.size).filterMap id

/-- Number of live (constructed, not yet destroyed) elements anywhere in the
buffer. -/
def Vector.live (v : Vector α) : Nat :=
  v.data.slots.countP Option.isSome

/-- Well-formedness witness: the buffer consists of the live elements `l`
(in order) followed by uninitialized padding, with `length = size ≤
capacity`. -/
def Vector.wfL (v : Vector α) (l : List α) : Prop :=
  v.data.slots = l.map some ++ List.replicate (v.data.capacity - v.size) none ∧
  l.length = v.size ∧ v.size ≤ v.data.capacity

instance [DecidableEq α] (v : Vector α) (l : List α) : Decidable (v.wfL l) := by
  unfold Vector.wfL; infer_instance

/-- `Vector(Vector&& other)`: steals the buffer (via `RawMemory`'s move
constructor) and the size, zeroing the source's size.
Returns (constructed vector, source afterwards). -/
def Vector.moveCtor (v : Vector α) : Vector α × Vector α :=
  (⟨(RawMemory.moveCtor v.data).1, v.size⟩, ⟨(RawMemory.moveCtor v.data).2, 0⟩)

/-- `Vector::operator=(Vector&& rhs)` for distinct objects:
`data_.Swap(rhs.data_); size_ = rhs.size_; rhs.size_ = 0;` — the buffers are
swapped but the sizes are not: the destination's old buffer (still holding
its live elements) ends up in `rhs` with `rhs.size_ = 0`.
Returns (destination afterwards, source afterwards). -/
def Vector.moveAssign (d s : Vector α) : Vector α × Vector α :=
  (⟨s.data, s.size⟩, ⟨d.data, 0⟩)

/-- `Vector::~Vector` runs `std::destroy_n(data_.GetAddress(), size_)`; the
result is the state of the block just before `RawMemory` frees it. -/
def Vector.destruct (v : Vector α) : Option (List (Option α)) :=
  destroyN v.data.slots 0 v.size

/-- `Vector::EmplaceBack` (success path).  On growth: allocate
`size_ == 0 ? 1 : 2 * size_`, construct the new element at slot `size_` of
the new buffer first, migrate the old elements
(`uninitialized_move_n`/`copy_n`, value-identical here), destroy the
originals, swap buffers; `++size_` last. -/
def Vector.emplaceBack (v : Vector α) (x : α) (a : Nat) : Option (Vector α) :=
  if v.size = v.data.capacity then
    let nd : RawMemory α := RawMemory.alloc (if v.size = 0 then 1 else 2 * v.size) a
    do
      let s1 ← constructAt nd.slots v.size x
      let s2 ← uninitMoveN v.data.slots 0 v.size s1 0
      let _ ← destroyN v.data.slots 0 v.size
      some ⟨⟨nd.address, nd.capacity, s2⟩, v.size + 1⟩
  else do
    let s1 ← constructAt v.data.slots v.size x
    some ⟨⟨v.data.address, v.data.capacity, s1⟩, v.size + 1⟩

/-- `Vector::PushBack(const T&)` / `PushBack(T&&)`: same algorithm as
`EmplaceBack` with the argument copied (value-identical here). -/
def Vector.pushBack (v : Vector α) (x : α) (a : Nat) : Option (Vector α) :=
  if v.size = v.data.capacity then
    let nd : RawMemory α := RawMemory.alloc (if v.size = 0 then 1 else 2 * v.size) a
    do
      let s1 ← constructAt nd.slots v.size x
      let s2 ← uninitMoveN v.data.slots 0 v.size s1 0
      let _ ← destroyN v.data.slots 0 v.size
      some ⟨⟨nd.address, nd.capacity, s2⟩, v.size + 1⟩
  else do
    let s1 ← constructAt v.data.slots v.size x
    some ⟨⟨v.data.address, v.data.capacity, s1⟩, v.size + 1⟩

/-- `Vector::Emplace(pos, args...)` (success path), `index = pos - begin()`.
Growth: allocate, construct the new element at `index` in the new buffer,
relocate the sub-ranges `[0, index)` and `[index, size_)` (the latter to
`index + 1`), destroy the originals, swap.  Spare capacity with
`size_ != index`: move-construct the last element into slot `size_`, shift
`[index, size_ - 1)` one slot right via `move_backward`, assign the new
value at `index`.  Spare capacity with `size_ == index`: construct in
place at the end. -/
def Vector.emplace (v : Vector α) (index : Nat) (x : α) (a : Nat) : Option (Vector α) :=
  if v.size = v.data.capacity then
    let indexToEnd := v.size - index
    let nd : RawMemory α := RawMemory.alloc (if v.size = 0 then 1 else 2 * v.size) a
    do
      let s1 ← constructAt nd.slots index x
      let s2 ← uninitMoveN v.data.slots 0 index s1 0
      let s3 ← uninitMoveN v.data.slots index indexToEnd s2 (index + 1)
      let _ ← destroyN v.data.slots 0 v.size
      some ⟨⟨nd.address, nd.capacity, s3⟩, v.size + 1⟩
  else
    if v.size ≠ index then do
      let z ← readAt v.data.slots (v.size - 1)
      let s1 ← constructAt v.data.slots v.size z
      let s2 ← moveBackShift1 s1 index (v.size - 1 - index)
      let s3 ← assignAt s2 index x
      some ⟨⟨v.data.address, v.data.capacity, s3⟩, v.size + 1⟩
    else do
      let s1 ← constructAt v.data.slots index x
      some ⟨⟨v.data.address, v.data.capacity, s1⟩, v.size + 1⟩

/-- `Vector::Insert(pos, value)` forwards to `Emplace`. -/
def Vector.insert (v : Vector α) (index : Nat) (x : α) (a : Nat) : Option (Vector α) :=
  v.emplace index x a

/-- `Vector::Erase(pos)`: shift `[index + 1, size_)` one slot left by
assignment, destroy the now-duplicate last slot, `--size_`. -/
def Vector.erase (v : Vector α) (index : Nat) : Option (Vector α) := do
  let s1 ← moveShiftLeft1 v.data.slots index (v.size - index - 1)
  let s2 ← destroyAt s1 (v.size - 1)
  some ⟨⟨v.data.address, v.data.capacity, s2⟩, v.size - 1⟩

/-- `Vector::PopBack()`: destroy the last element, `size_--`. -/
def Vector.popBack (v : Vector α) : Option (Vector α) := do
  let s1 ← destroyAt v.data.slots (v.size - 1)
  some ⟨⟨v.data.address, v.data.capacity, s1⟩, v.size - 1⟩

/-- `Vector::Reserve(new_capacity)`: no-op unless `new_capacity >
capacity`; otherwise allocate exactly `new_capacity`, migrate, destroy
originals, swap. -/
def Vector.reserve (v : Vector α) (newCapacity : Nat) (a : Nat) : Option (Vector α) :=
  if newCapacity ≤ v.data.capacity then some v
  else
    let nd : RawMemory α := RawMemory.alloc newCapacity a
    do
      let s1 ← uninitMoveN v.data.slots 0 v.size nd.slots 0
      let _ ← destroyN v.data.slots 0 v.size
      some ⟨⟨nd.address, nd.capacity, s1⟩, v.size⟩

/-- `Vector::Resize(new_size)`: no-op on equal size; shrink destroys the
tail; grow reserves then value-constructs the `new_size - size_` fresh
slots. -/
def Vector.resize [Inhabited α] (v : Vector α) (newSize : Nat) (a : Nat) : Option (Vector α) :=
  if newSize = v.size then some v
  else if newSize < v.size then do
    let s1 ← destroyN v.data.slots newSize (v.size - newSize)
    some ⟨⟨v.data.address, v.data.capacity, s1⟩, newSize⟩
  else
    let diff := newSize - v.size
    do
      let v1 ← v.reserve newSize a
      let s1 ← uninitValueConstructN v1.data.slots v.size diff
      some ⟨⟨v1.data.address, v1.data.capacity, s1⟩, newSize⟩

/-- `Vector::operator=(const Vector& rhs)` for distinct objects.
`rhs.size_ > capacity`: build a full copy (capacity `rhs.size_`) and swap it
in (the old buffer's elements are destroyed when the temporary dies).
Otherwise overwrite the common prefix by assignment, then either
copy-construct the excess tail (growing) or destroy the excess tail
(shrinking); `size_ = rhs.size_` last. -/
def Vector.copyAssign (d s : Vector α) (a : Nat) : Option (Vector α) :=
  if s.size > d.data.capacity then
    let nd : RawMemory α := RawMemory.alloc s.size a
    do
      let s1 ← uninitCopyN s.data.slots 0 s.size nd.slots 0
      let _ ← destroyN d.data.slots 0 d.size
      some ⟨⟨nd.address, nd.capacity, s1⟩, s.size⟩
  else if s.size ≥ d.size then do
    let s1 ← copyN s.data.slots 0 d.size d.data.slots 0
    let s2 ← uninitCopyN s.data.slots d.size (s.size - d.size) s1 d.size
    some ⟨⟨d.data.address, d.data.capacity, s2⟩, s.size⟩
  else do
    let s1 ← copyN s.data.slots 0 s.size d.data.slots 0
    let s2 ← destroyN s1 s.size (d.size - s.size)
    some ⟨⟨d.data.address, d.data.capacity, s2⟩, s.size⟩

/-! ### Exception-aware models

Outcomes of an operation under an element-failure oracle: `ok v` — returned
normally with final state `v`; `threw v` — an exception propagated out of
the operation, `v` the container state after unwinding; `ub` — a lifecycle
violation occurred (double destruction, use of a dead slot, …), undefined
behavior in C++. -/

inductive ExnRes (α : Type) where
  | ok (v : Vector α)
  | threw (v : Vector α)
  | ub
deriving DecidableEq

/-- `std::uninitialized_copy_n`/`_move_n` under a failure oracle:
`throwAt = some k` with `k < n` means constructing the `k`-th element
throws; the algorithm destroys the `k` elements it had constructed in the
destination and the exception propagates (`Except.error` carries the
cleaned destination).  `none` outcome is a lifecycle violation. -/
def uninitCopyNE (src : List (Option α)) (s : Nat) (n : Nat)
    (dst : List (Option α)) (d : Nat) (throwAt : Option Nat) :
    Option (Except (List (Option α)) (List (Option α))) :=
  match throwAt with
  | some k =>
    if k < n then
      (uninitCopyN src s k dst d).bind (fun dst2 =>
        (destroyN dst2 d k).map (fun dst3 => Except.error dst3))
    else (uninitCopyN src s n dst d).map Except.ok
  | none => (uninitCopyN src s n dst d).map Except.ok

/-- `Vector::EmplaceBack` under a failure oracle.  The code allocates the
new block, constructs the new element at slot `size_` of the new block
(if that construction throws, unwinding frees the raw block and the vector
was never touched), then migrates the old elements (a migration failure is
cleaned by the algorithm and propagates — no catch here), then destroys the
originals, swaps, and increments `size_`. -/
def Vector.emplaceBackE (v : Vector α) (x : α) (a : Nat)
    (newElemThrows : Bool) (migThrowAt : Option Nat) : ExnRes α :=
  if v.size = v.data.capacity then
    let nd : RawMemory α := RawMemory.alloc (if v.size = 0 then 1 else 2 * v.size) a
    if newElemThrows then ExnRes.threw v
    else
      match constructAt nd.slots v.size x with
      | none => ExnRes.ub
      | some s1 =>
        match uninitCopyNE v.data.slots 0 v.size s1 0 migThrowAt with
        | none => ExnRes.ub
        | some (Except.error _) => ExnRes.threw v
        | some (Except.ok s2) =>
          match destroyN v.data.slots 0 v.size with
          | none => ExnRes.ub
          | some _ => ExnRes.ok ⟨⟨nd.address, nd.capacity, s2⟩, v.size + 1⟩
  else
    if newElemThrows then ExnRes.threw v
    else
      match constructAt v.data.slots v.size x with
      | none => ExnRes.ub
      | some s1 => ExnRes.ok ⟨⟨v.data.address, v.data.capacity, s1⟩, v.size + 1⟩

/-- `Vector::Emplace` (growth path) under a failure oracle, mirroring the
code's `try`/`catch` structure: each of the two sub-range relocations is
wrapped in a `try` whose `catch (...)` handler runs
`std::destroy_n` over the corresponding sub-range of the **old** buffer and
then falls through — the handler does not rethrow, so control continues
with the rest of the function (`destroy_n(begin(), size_)`, buffer swap,
`++size_`, normal return). -/
def Vector.emplaceE (v : Vector α) (index : Nat) (x : α) (a : Nat)
    (newElemThrows : Bool) (mig1ThrowAt mig2ThrowAt : Option Nat) : ExnRes α :=
  if v.size = v.data.capacity then
    let indexToEnd := v.size - index
    let nd : RawMemory α := RawMemory.alloc (if v.size = 0 then 1 else 2 * v.size) a
    if newElemThrows then ExnRes.threw v
    else
      match constructAt nd.slots index x with
      | none => ExnRes.ub
      | some s1 =>
        let afterTry1 : Option (List (Option α) × List (Option α)) :=
          match uninitCopyNE v.data.slots 0 index s1 0 mig1ThrowAt with
          | none => none
          | some (Except.ok s2) => some (v.data.slots, s2)
          | some (Except.error s2) =>
            (destroyN v.data.slots 0 index).map (fun old2 => (old2, s2))
        match afterTry1 with
        | none => ExnRes.ub
        | some (old1, s2) =>
          let afterTry2 : Option (List (Option α) × List (Option α)) :=
            match uninitCopyNE old1 index indexToEnd s2 (index + 1) mig2ThrowAt with
            | none => none
            | some (Except.ok s3) => some (old1, s3)
            | some (Except.error s3) =>
              (destroyN old1 index indexToEnd).map (fun old2 => (old2, s3))
          match afterTry2 with
          | none => ExnRes.ub
          | some (old2, s3) =>
            match destroyN old2 0 v.size with
            | none => ExnRes.ub
            | some _ => ExnRes.ok ⟨⟨nd.address, nd.capacity, s3⟩, v.size + 1⟩
  else
    if newElemThrows then ExnRes.threw v
    else
      if v.size ≠ index then
        match (do
          let z ← readAt v.data.slots (v.size - 1)
          let s1 ← constructAt v.data.slots v.size z
          let s2 ← moveBackShift1 s1 index (v.size - 1 - index)
          let s3 ← assignAt s2 index x
          some ⟨⟨v.data.address, v.data.capacity, s3⟩, v.size + 1⟩ : Option (Vector α)) with
        | none => ExnRes.ub
        | some v2 => ExnRes.ok v2
      else
        match constructAt v.data.slots index x with
        | none => ExnRes.ub
        | some s1 => ExnRes.ok ⟨⟨v.data.address, v.data.capacity, s1⟩, v.size + 1⟩

/-! ### Supporting list lemmas -/

theorem getElem?_append_cons {β : Type} (P : List β) (b : β) (B : List β) :
    (P ++ b :: B)[P.length]? = some b := by
  induction P with
  | nil => simp
  | cons p P ih =>
      simp only [List.cons_append, List.length_cons, List.getElem?_cons_succ]
      exact ih

theorem set_append_cons {β : Type} (P : List β) (b c : β) (B : List β) :
    (P ++ b :: B).set P.length c = P ++ c :: B := by
  induction P with
  | nil => rfl
  | cons p P ih =>
      simp only [List.cons_append, List.length_cons, List.set_cons_succ]
      rw [ih]

theorem getElem?_append_mid {β : Type} (P M Q : List β) (k : Nat) (h : k < M.length) :
    (P ++ (M ++ Q))[P.length + k]? = M[k]? := by
  rw [List.getElem?_append_right (Nat.le_add_right _ _), Nat.add_sub_cancel_left,
    List.getElem?_append_left h]

theorem set_append_mid {β : Type} (P M Q : List β) (k : Nat) (c : β) (h : k < M.length) :
    (P ++ (M ++ Q)).set (P.length + k) c = P ++ (M.set k c ++ Q) := by
  rw [List.set_append_right _ _ (Nat.le_add_right _ _), Nat.add_sub_cancel_left,
    List.set_append_left _ _ h]

theorem replicate_split {β : Type} (k n : Nat) (c : β) (h : k < n) :
    List.replicate n c = List.replicate k c ++ c :: List.replicate (n - k - 1) c := by
  conv_lhs => rw [show n = k + ((n - k - 1) + 1) by omega]
  rw [List.replicate_add]
  rfl

/-! ### Behaviour of the checked primitives on structured buffers -/

theorem readAt_mid (P : List (Option α)) (y : α) (Q : List (Option α)) :
    readAt (P ++ some y :: Q) P.length = some y := by
  unfold readAt
  rw [getElem?_append_cons]
  rfl

theorem constructAt_mid (P : List (Option α)) (x : α) (Q : List (Option α)) :
    constructAt (P ++ none :: Q) P.length x = some (P ++ some x :: Q) := by
  unfold constructAt
  rw [getElem?_append_cons, set_append_cons]

theorem assignAt_mid (P : List (Option α)) (y x : α) (Q : List (Option α)) :
    assignAt (P ++ some y :: Q) P.length x = some (P ++ some x :: Q) := by
  unfold assignAt
  rw [getElem?_append_cons, set_append_cons]

theorem destroyAt_mid (P : List (Option α)) (y : α) (Q : List (Option α)) :
    destroyAt (P ++ some y :: Q) P.length = some (P ++ none :: Q) := by
  unfold destroyAt
  rw [getElem?_append_cons, set_append_cons]

theorem uninitCopyN_spec : ∀ (m : List α) (P Q A B : List (Option α)),
    uninitCopyN (P ++ (m.map some ++ Q)) P.length m.length
      (A ++ (List.replicate m.length none ++ B)) A.length = some (A ++ (m.map some ++ B)) := by
  intro m
  induction m with
  | nil => intro P Q A B; simp [uninitCopyN]
  | cons x m ih =>
      intro P Q A B
      rw [List.map_cons, List.length_cons, List.replicate_succ]
      show (readAt (P ++ some x :: (m.map some ++ Q)) P.length).bind _ = _
      rw [readAt_mid]
      show (constructAt (A ++ none :: (List.replicate m.length none ++ B)) A.length x).bind _ = _
      rw [constructAt_mid]
      show uninitCopyN (P ++ some x :: (m.map some ++ Q)) (P.length + 1) m.length
        (A ++ some x :: (List.replicate m.length none ++ B)) (A.length + 1) = _
      have hP : P ++ some x :: (m.map some ++ Q) = (P ++ [some x]) ++ (m.map some ++ Q) := by simp
      have hA : A ++ some x :: (List.replicate m.length none ++ B)
          = (A ++ [some x]) ++ (List.replicate m.length none ++ B) := by simp
      have hPl : P.length + 1 = (P ++ [some x]).length := by simp
      have hAl : A.length + 1 = (A ++ [some x]).length := by simp
      rw [hP, hA, hPl, hAl, ih]
      simp

theorem copyN_spec : ∀ (m : List α) (w : List α) (P Q A B : List (Option α)),
    w.length = m.length →
    copyN (P ++ (m.map some ++ Q)) P.length m.length
      (A ++ (w.map some ++ B)) A.length = some (A ++ (m.map some ++ B)) := by
  intro m
  induction m with
  | nil =>
      intro w P Q A B hw
      rw [List.length_eq_zero.mp hw]
      simp [copyN]
  | cons x m ih =>
      intro w P Q A B hw
      match w, hw with
      | y :: w, hw =>
        rw [List.map_cons, List.length_cons]
        show (readAt (P ++ some x :: (m.map some ++ Q)) P.length).bind _ = _
        rw [readAt_mid]
        show (assignAt (A ++ some y :: (w.map some ++ B)) A.length x).bind _ = _
        rw [assignAt_mid]
        show copyN (P ++ some x :: (m.map some ++ Q)) (P.length + 1) m.length
          (A ++ some x :: (w.map some ++ B)) (A.length + 1) = _
        have hP : P ++ some x :: (m.map some ++ Q) = (P ++ [some x]) ++ (m.map some ++ Q) := by simp
        have hA : A ++ some x :: (w.map some ++ B) = (A ++ [some x]) ++ (w.map some ++ B) := by simp
        have hPl : P.length + 1 = (P ++ [some x]).length := by simp
        have hAl : A.length + 1 = (A ++ [some x]).length := by simp
        rw [hP, hA, hPl, hAl, ih w _ _ _ _ (by simpa using hw)]
        simp

theorem destroyN_spec : ∀ (w : List α) (P Q : List (Option α)),
    destroyN (P ++ (w.map some ++ Q)) P.length w.length
      = some (P ++ (List.replicate w.length none ++ Q)) := by
  intro w
  induction w with
  | nil => intro P Q; simp [destroyN]
  | cons y w ih =>
      intro P Q
      rw [List.map_cons, List.length_cons]
      show (destroyAt (P ++ some y :: (w.map some ++ Q)) P.length).bind _ = _
      rw [destroyAt_mid]
      show destroyN (P ++ none :: (w.map some ++ Q)) (P.length + 1) w.length = _
      have hP : P ++ none :: (w.map some ++ Q) = (P ++ [none]) ++ (w.map some ++ Q) := by simp
      have hPl : P.length + 1 = (P ++ [(none : Option α)]).length := by simp
      rw [hP, hPl, ih]
      simp [List.replicate_succ]

theorem uninitValueConstructN_spec [Inhabited α] : ∀ (n : Nat) (A B : List (Option α)),
    uninitValueConstructN (A ++ (List.replicate n none ++ B)) A.length n
      = some (A ++ (List.replicate n (some (default : α)) ++ B)) := by
  intro n
  induction n with
  | zero => intro A B; simp [uninitValueConstructN]
  | succ n ih =>
      intro A B
      rw [List.replicate_succ, List.replicate_succ]
      show (constructAt (A ++ none :: (List.replicate n none ++ B)) A.length _).bind _ = _
      rw [constructAt_mid]
      show uninitValueConstructN
        (A ++ some default :: (List.replicate n none ++ B)) (A.length + 1) n = _
      have hA : A ++ some (default : α) :: (List.replicate n none ++ B)
          = (A ++ [some default]) ++ (List.replicate n none ++ B) := by simp
      have hAl : A.length + 1 = (A ++ [some (default : α)]).length := by simp
      rw [hA, hAl, ih]
      simp

theorem moveShiftLeft1_spec : ∀ (n : Nat) (m : List α) (P Q : List (Option α)),
    m.length = n + 1 →
    moveShiftLeft1 (P ++ (m.map some ++ Q)) P.length n
      = some (P ++ ((m.drop 1 ++ m.drop n).map some ++ Q)) := by
  intro n
  induction n with
  | zero =>
      intro m P Q hm
      match m, hm with
      | [y], _ => simp [moveShiftLeft1]
  | succ n ih =>
      intro m P Q hm
      match m, hm with
      | y :: z :: r, hm =>
        have hread : readAt (P ++ ((y :: z :: r).map some ++ Q)) (P.length + 1) = some z := by
          have h1 : P ++ ((y :: z :: r).map some ++ Q)
              = (P ++ [some y]) ++ (some z :: (r.map some ++ Q)) := by simp
          have h2 : P.length + 1 = (P ++ [some y]).length := by simp
          rw [h1, h2, readAt_mid]
        have hassign : assignAt (P ++ ((y :: z :: r).map some ++ Q)) P.length z
            = some (P ++ (some z :: some z :: (r.map some ++ Q))) := by
          have h1 : P ++ ((y :: z :: r).map some ++ Q)
              = P ++ some y :: (some z :: (r.map some ++ Q)) := by simp
          rw [h1, assignAt_mid]
        show (readAt (P ++ ((y :: z :: r).map some ++ Q)) (P.length + 1)).bind _ = _
        rw [hread]
        show (assignAt (P ++ ((y :: z :: r).map some ++ Q)) P.length z).bind _ = _
        rw [hassign]
        show moveShiftLeft1 (P ++ (some z :: some z :: (r.map some ++ Q))) (P.length + 1) n = _
        have h3 : P ++ (some z :: some z :: (r.map some ++ Q))
            = (P ++ [some z]) ++ ((z :: r).map some ++ Q) := by simp
        have h4 : P.length + 1 = (P ++ [some z]).length := by simp
        rw [h3, h4, ih (z :: r) _ _ (by simpa using hm)]
        simp

theorem moveBackShift1_spec : ∀ (n : Nat) (m : List α) (P Q : List (Option α)),
    m.length = n + 1 →
    moveBackShift1 (P ++ (m.map some ++ Q)) P.length n
      = some (P ++ ((m.take 1 ++ m.take n).map some ++ Q)) := by
  intro n
  induction n with
  | zero =>
      intro m P Q hm
      match m, hm with
      | [y], _ => simp [moveBackShift1]
  | succ n ih =>
      intro m P Q hm
      have hn : n < m.length := by omega
      have hn1 : n + 1 < m.length := by omega
      obtain ⟨y, hy⟩ : ∃ y, m[n]? = some y := ⟨_, List.getElem?_eq_getElem hn⟩
      obtain ⟨z, hz⟩ : ∃ z, m.drop (n + 1) = [z] := by
        apply List.length_eq_one.mp
        simp [hm]
      have hmz : m = m.take (n + 1) ++ [z] := by
        conv_lhs => rw [← List.take_append_drop (n + 1) m]
        rw [hz]
      have htl : (m.take (n + 1)).length = n + 1 := List.length_take_of_le (by omega)
      have hread : readAt (P ++ (m.map some ++ Q)) (P.length + n) = some y := by
        unfold readAt
        rw [getElem?_append_mid _ _ _ _ (by simpa using hn), List.getElem?_map, hy]
        rfl
      have hassign : assignAt (P ++ (m.map some ++ Q)) (P.length + n + 1) y
          = some (P ++ ((m.take (n + 1) ++ [y]).map some ++ Q)) := by
        unfold assignAt
        have e1 : P.length + n + 1 = P.length + (n + 1) := by omega
        rw [e1, getElem?_append_mid _ _ _ _ (by simpa using hn1), List.getElem?_map,
          List.getElem?_eq_getElem hn1]
        show some _ = _
        rw [set_append_mid _ _ _ _ _ (by simpa using hn1), ← List.map_set]
        have e2 : m.set (n + 1) y = m.take (n + 1) ++ [y] := by
          conv_lhs => rw [hmz]
          have e3 : (m.take (n + 1) ++ [z]).set (n + 1) y
              = (m.take (n + 1) ++ z :: []).set (m.take (n + 1)).length y := by rw [htl]
          rw [e3, set_append_cons]
        rw [e2]
      show (readAt (P ++ (m.map some ++ Q)) (P.length + n)).bind _ = _
      rw [hread]
      show (assignAt (P ++ (m.map some ++ Q)) (P.length + n + 1) y).bind _ = _
      rw [hassign]
      show moveBackShift1 (P ++ ((m.take (n + 1) ++ [y]).map some ++ Q)) P.length n = _
      have h3 : P ++ ((m.take (n + 1) ++ [y]).map some ++ Q)
          = P ++ ((m.take (n + 1)).map some ++ (some y :: Q)) := by simp
      rw [h3, ih (m.take (n + 1)) _ _ htl]
      have h4 : (m.take (n + 1)).take 1 = m.take 1 := by
        rw [List.take_take]
        congr 1
        omega
      have h5 : (m.take (n + 1)).take n = m.take n := by
        rw [List.take_take]
        congr 1
        omega
      have h6 : m.take (n + 1) = m.take n ++ [y] := by
        rw [List.take_succ, hy]
        rfl
      rw [h4, h5]
      have h7 : (m.take 1 ++ m.take n).map some ++ some y :: Q
          = (m.take 1 ++ m.take (n + 1)).map some ++ Q := by
        rw [h6]
        simp
      rw [h7]

/-! ### Index-generalised wrappers for the primitive specs -/

theorem readAt_at (P : List (Option α)) (y : α) (Q : List (Option α))
    (slots : List (Option α)) (i : Nat)
    (hsl : slots = P ++ some y :: Q) (hi : i = P.length) : readAt slots i = some y := by
  subst hsl hi; exact readAt_mid ..

theorem constructAt_at (P : List (Option α)) (x : α) (Q : List (Option α))
    (slots : List (Option α)) (i : Nat)
    (hsl : slots = P ++ none :: Q) (hi : i = P.length) :
    constructAt slots i x = some (P ++ some x :: Q) := by
  subst hsl hi; exact constructAt_mid ..

theorem assignAt_at (P : List (Option α)) (y x : α) (Q : List (Option α))
    (slots : List (Option α)) (i : Nat)
    (hsl : slots = P ++ some y :: Q) (hi : i = P.length) :
    assignAt slots i x = some (P ++ some x :: Q) := by
  subst hsl hi; exact assignAt_mid ..

theorem destroyAt_at (P : List (Option α)) (y : α) (Q : List (Option α))
    (slots : List (Option α)) (i : Nat)
    (hsl : slots = P ++ some y :: Q) (hi : i = P.length) :
    destroyAt slots i = some (P ++ none :: Q) := by
  subst hsl hi; exact destroyAt_mid ..

theorem uninitCopyN_at (m : List α) (P Q A B : List (Option α))
    (src dst : List (Option α)) (s n d : Nat)
    (hsrc : src = P ++ (m.map some ++ Q)) (hdst : dst = A ++ (List.replicate m.length none ++ B))
    (hs : s = P.length) (hn : n = m.length) (hd : d = A.length) :
    uninitCopyN src s n dst d = some (A ++ (m.map some ++ B)) := by
  subst hsrc hdst hs hn hd; exact uninitCopyN_spec ..

theorem copyN_at (m w : List α) (P Q A B : List (Option α))
    (src dst : List (Option α)) (s n d : Nat)
    (hw : w.length = m.length)
    (hsrc : src = P ++ (m.map some ++ Q)) (hdst : dst = A ++ (w.map some ++ B))
    (hs : s = P.length) (hn : n = m.length) (hd : d = A.length) :
    copyN src s n dst d = some (A ++ (m.map some ++ B)) := by
  subst hsrc hdst hs hn hd; exact copyN_spec _ _ _ _ _ _ hw

theorem destroyN_at (w : List α) (P Q : List (Option α))
    (slots : List (Option α)) (d n : Nat)
    (hsl : slots = P ++ (w.map some ++ Q)) (hd : d = P.length) (hn : n = w.length) :
    destroyN slots d n = some (P ++ (List.replicate w.length none ++ Q)) := by
  subst hsl hd hn; exact destroyN_spec ..

theorem uninitValueConstructN_at [Inhabited α] (n : Nat) (A B : List (Option α))
    (dst : List (Option α)) (d k : Nat)
    (hdst : dst = A ++ (List.replicate n none ++ B)) (hd : d = A.length) (hk : k = n) :
    uninitValueConstructN dst d k = some (A ++ (List.replicate n (some (default : α)) ++ B)) := by
  subst hdst hd hk; exact uninitValueConstructN_spec ..

theorem moveShiftLeft1_at (n : Nat) (m : List α) (P Q : List (Option α))
    (slots : List (Option α)) (first k : Nat)
    (hm : m.length = n + 1) (hsl : slots = P ++ (m.map some ++ Q))
    (hf : first = P.length) (hk : k = n) :
    moveShiftLeft1 slots first k = some (P ++ ((m.drop 1 ++ m.drop n).map some ++ Q)) := by
  subst hsl hf hk; exact moveShiftLeft1_spec _ _ _ _ hm

theorem moveBackShift1_at (n : Nat) (m : List α) (P Q : List (Option α))
    (slots : List (Option α)) (first k : Nat)
    (hm : m.length = n + 1) (hsl : slots = P ++ (m.map some ++ Q))
    (hf : first = P.length) (hk : k = n) :
    moveBackShift1 slots first k = some (P ++ ((m.take 1 ++ m.take n).map some ++ Q)) := by
  subst hsl hf hk; exact moveBackShift1_spec _ _ _ _ hm

/-! ### Well-formedness facts -/

theorem Vector.wfL_seq (v : Vector α) (l : List α) (h : v.wfL l) : v.seq = l := by
  obtain ⟨hs, hl, _⟩ := h
  unfold Vector.seq
  rw [hs, List.take_left' (by simp [hl]), List.filterMap_map]
  simp [Function.comp]

theorem Vector.wfL_size (v : Vector α) (l : List α) (h : v.wfL l) : l.length = v.size := h.2.1

/-! ### Operation specifications (success paths) -/

theorem replicate_none_split_cons (c n : Nat) (h : c = n + 1) :
    List.replicate c (none : Option α) = none :: List.replicate n none := by
  rw [h, List.replicate_succ]

theorem map_some_snoc (l : List α) (x : α) (R : List (Option α)) :
    l.map some ++ (some x :: R) = (l ++ [x]).map some ++ R := by simp

theorem Vector.emplaceBack_spec (v : Vector α) (l : List α) (x : α) (a : Nat) (h : v.wfL l) :
    ∃ w, v.emplaceBack x a = some w ∧ w.wfL (l ++ [x]) ∧ w.size = v.size + 1 ∧
      w.data.capacity
        = (if v.size = v.data.capacity then (if v.size = 0 then 1 else 2 * v.size)
           else v.data.capacity) ∧
      (v.size ≠ v.data.capacity → w.data.address = v.data.address) := by
  obtain ⟨hs, hl, hle⟩ := h
  by_cases hc : v.size = v.data.capacity
  · have hs' : v.data.slots = l.map some := by
      rw [hs, show v.data.capacity - v.size = 0 by omega]
      simp
    have hlt : v.size < (if v.size = 0 then 1 else 2 * v.size) := by
      by_cases h0 : v.size = 0
      · simp [h0]
      · simp [h0]
        omega
    have hrun : v.emplaceBack x a
        = some ⟨⟨(RawMemory.alloc (α := α) (if v.size = 0 then 1 else 2 * v.size) a).address,
            if v.size = 0 then 1 else 2 * v.size,
            (l ++ [x]).map some
              ++ List.replicate ((if v.size = 0 then 1 else 2 * v.size) - (v.size + 1))
                none⟩, v.size + 1⟩ := by
      unfold Vector.emplaceBack
      rw [if_pos hc]
      show (constructAt (List.replicate (if v.size = 0 then 1 else 2 * v.size) none)
        v.size x).bind _ = _
      rw [constructAt_at (List.replicate v.size none) x
        (List.replicate ((if v.size = 0 then 1 else 2 * v.size) - v.size - 1) none) _ _
        (replicate_split _ _ _ hlt) (by simp)]
      show (uninitCopyN v.data.slots 0 v.size _ 0).bind _ = _
      rw [uninitCopyN_at l [] [] []
        (some x :: List.replicate ((if v.size = 0 then 1 else 2 * v.size) - v.size - 1) none)
        _ _ _ _ _ (by simpa using hs') (by simp [hl]) (by simp) (by omega) (by simp)]
      show (destroyN v.data.slots 0 v.size).bind _ = _
      rw [destroyN_at l [] [] _ _ _ (by simpa using hs') (by simp) (by omega)]
      show some _ = _
      rw [List.nil_append, map_some_snoc]
      rw [show (if v.size = 0 then 1 else 2 * v.size) - v.size - 1
          = (if v.size = 0 then 1 else 2 * v.size) - (v.size + 1) by omega]
      rfl
    refine ⟨_, hrun, ⟨rfl, by simp [hl],
      by show v.size + 1 ≤ if v.size = 0 then 1 else 2 * v.size; omega⟩, by simp,
      by rw [if_pos hc], fun hne => absurd hc hne⟩
  · have hlt : v.size < v.data.capacity := by omega
    have hs' : v.data.slots
        = l.map some ++ none :: List.replicate (v.data.capacity - v.size - 1) none := by
      rw [hs]
      rw [replicate_none_split_cons (v.data.capacity - v.size) (v.data.capacity - v.size - 1)
        (by omega)]
    have hrun : v.emplaceBack x a
        = some ⟨⟨v.data.address, v.data.capacity,
            (l ++ [x]).map some
              ++ List.replicate (v.data.capacity - (v.size + 1)) none⟩, v.size + 1⟩ := by
      unfold Vector.emplaceBack
      rw [if_neg hc]
      show (constructAt v.data.slots v.size x).bind _ = _
      rw [constructAt_at (l.map some) x (List.replicate (v.data.capacity - v.size - 1) none) _ _
        hs' (by simp [hl])]
      show some _ = _
      rw [map_some_snoc]
      rw [show v.data.capacity - v.size - 1 = v.data.capacity - (v.size + 1) by omega]
    refine ⟨_, hrun, ⟨rfl, by simp [hl],
      by show v.size + 1 ≤ v.data.capacity; omega⟩, by simp,
      by rw [if_neg hc], fun _ => rfl⟩

theorem Vector.pushBack_eq (v : Vector α) (x : α) (a : Nat) :
    v.pushBack x a = v.emplaceBack x a := rfl

theorem Vector.reserve_spec (v : Vector α) (l : List α) (k a : Nat) (h : v.wfL l) :
    ∃ w, v.reserve k a = some w ∧ v.data.capacity ≤ w.data.capacity ∧ w.size = v.size ∧
      w.wfL l ∧ (k ≤ v.data.capacity → w = v) ∧
      (v.data.capacity < k → w.data.capacity = k) := by
  obtain ⟨hs, hl, hle⟩ := h
  by_cases hk : k ≤ v.data.capacity
  · refine ⟨v, ?_, le_refl _, rfl, ⟨hs, hl, hle⟩, fun _ => rfl, fun hlt => absurd hk (by omega)⟩
    unfold Vector.reserve
    rw [if_pos hk]
  · have hlt : v.data.capacity < k := by omega
    have hrun : v.reserve k a
        = some ⟨⟨(RawMemory.alloc (α := α) k a).address, k,
            l.map some ++ List.replicate (k - v.size) none⟩, v.size⟩ := by
      unfold Vector.reserve
      rw [if_neg hk]
      show (uninitCopyN v.data.slots 0 v.size _ 0).bind _ = _
      rw [uninitCopyN_at l [] (List.replicate (v.data.capacity - v.size) none) []
        (List.replicate (k - v.size) none) _ _ _ _ _
        (by simpa using hs)
        (by simp only [RawMemory.alloc, List.nil_append, hl, List.append_replicate_replicate]
            congr 1
            omega)
        (by simp) (by omega) (by simp)]
      show (destroyN v.data.slots 0 v.size).bind _ = _
      rw [destroyN_at l [] (List.replicate (v.data.capacity - v.size) none) _ _ _
        (by simpa using hs) (by simp) (by omega)]
      rfl
    exact ⟨_, hrun, by show v.data.capacity ≤ k; omega, rfl,
      ⟨rfl, by simpa using hl, by show v.size ≤ k; omega⟩,
      fun hk2 => absurd hk2 (by omega), fun _ => rfl⟩

theorem insertIdx_eq_take_cons_drop (l : List α) (i : Nat) (x : α) (hi : i ≤ l.length) :
    l.insertIdx i x = l.take i ++ x :: l.drop i := by
  induction l generalizing i with
  | nil =>
      have : i = 0 := by simpa using hi
      subst this
      simp
  | cons yl tl ih =>
      cases i with
      | zero => simp
      | succ j =>
          rw [List.insertIdx_succ_cons]
          simp only [List.take_succ_cons, List.drop_succ_cons, List.cons_append,
            List.cons.injEq, true_and]
          exact ih j (by simpa using hi)

theorem Vector.erase_spec (v : Vector α) (l : List α) (i : Nat) (h : v.wfL l)
    (hi : i < v.size) :
    ∃ w, v.erase i = some w ∧ w.wfL (l.eraseIdx i) ∧ w.size = v.size - 1 ∧
      w.data.capacity = v.data.capacity ∧ w.data.address = v.data.address := by
  obtain ⟨hs, hl, hle⟩ := h
  have hil : i < l.length := by omega
  have hmlen : (l.drop i).length = (v.size - i - 1) + 1 := by
    simp only [List.length_drop]
    omega
  obtain ⟨z, hz⟩ : ∃ z, l.drop (v.size - 1) = [z] := by
    apply List.length_eq_one.mp
    simp only [List.length_drop]
    omega
  have h1 : moveShiftLeft1 v.data.slots i (v.size - i - 1)
      = some ((l.take i).map some
          ++ (((l.drop i).drop 1 ++ (l.drop i).drop (v.size - i - 1)).map some
            ++ List.replicate (v.data.capacity - v.size) none)) :=
    moveShiftLeft1_at (v.size - i - 1) (l.drop i) ((l.take i).map some)
      (List.replicate (v.data.capacity - v.size) none) _ _ _ hmlen
      (by rw [hs]
          rw [show (l.map some : List (Option α))
              = (l.take i).map some ++ (l.drop i).map some by
            rw [← List.map_append, List.take_append_drop]]
          rw [List.append_assoc])
      (by simp only [List.length_map, List.length_take]
          omega)
      rfl
  have hmid : ((l.drop i).drop 1 ++ (l.drop i).drop (v.size - i - 1)) = l.drop (i + 1) ++ [z] := by
    rw [List.drop_drop, List.drop_drop]
    rw [show i + (v.size - i - 1) = v.size - 1 by omega, hz]
  have h2 : destroyAt ((l.take i).map some
      ++ ((l.drop (i + 1) ++ [z]).map some ++ List.replicate (v.data.capacity - v.size) none))
      (v.size - 1)
      = some ((l.take i ++ l.drop (i + 1)).map some
          ++ (none :: List.replicate (v.data.capacity - v.size) none)) :=
    destroyAt_at ((l.take i ++ l.drop (i + 1)).map some) z
      (List.replicate (v.data.capacity - v.size) none) _ _
      (by simp)
      (by simp only [List.length_map, List.length_append, List.length_take, List.length_drop]
          omega)
  have hfin : (l.take i ++ l.drop (i + 1)).map some
      ++ (none :: List.replicate (v.data.capacity - v.size) none)
      = (l.eraseIdx i).map some
        ++ List.replicate (v.data.capacity - (v.size - 1)) none := by
    rw [← List.eraseIdx_eq_take_drop_succ]
    congr 1
    exact (replicate_none_split_cons (v.data.capacity - (v.size - 1))
      (v.data.capacity - v.size) (by omega)).symm
  have hrun : v.erase i = some ⟨⟨v.data.address, v.data.capacity,
      (l.eraseIdx i).map some
        ++ List.replicate (v.data.capacity - (v.size - 1)) none⟩, v.size - 1⟩ := by
    unfold Vector.erase
    show (moveShiftLeft1 v.data.slots i (v.size - i - 1)).bind _ = _
    rw [h1, hmid]
    show (destroyAt _ (v.size - 1)).bind _ = _
    rw [h2]
    show some _ = _
    rw [hfin]
  refine ⟨_, hrun, ⟨rfl, ?_, by show v.size - 1 ≤ v.data.capacity; omega⟩, rfl, rfl, rfl⟩
  show (l.eraseIdx i).length = v.size - 1
  rw [List.length_eraseIdx_of_lt hil]
  omega

theorem Vector.emplace_spec (v : Vector α) (l : List α) (i : Nat) (x : α) (a : Nat)
    (h : v.wfL l) (hi : i ≤ v.size) :
    ∃ w, v.emplace i x a = some w ∧ w.wfL (l.insertIdx i x) ∧ w.size = v.size + 1 := by
  obtain ⟨hs, hl, hle⟩ := h
  have hins : l.insertIdx i x = l.take i ++ x :: l.drop i :=
    insertIdx_eq_take_cons_drop l i x (by omega)
  by_cases hc : v.size = v.data.capacity
  · -- growth path
    have hs' : v.data.slots = l.map some := by
      rw [hs, show v.data.capacity - v.size = 0 by omega]
      simp
    have hlt : v.size < (if v.size = 0 then 1 else 2 * v.size) := by
      by_cases h0 : v.size = 0
      · simp [h0]
      · simp [h0]
        omega
    have hrun : v.emplace i x a
        = some ⟨⟨(RawMemory.alloc (α := α) (if v.size = 0 then 1 else 2 * v.size) a).address,
            if v.size = 0 then 1 else 2 * v.size,
            (l.insertIdx i x).map some
              ++ List.replicate ((if v.size = 0 then 1 else 2 * v.size) - (v.size + 1))
                none⟩, v.size + 1⟩ := by
      unfold Vector.emplace
      rw [if_pos hc]
      show (constructAt (List.replicate (if v.size = 0 then 1 else 2 * v.size) none)
        i x).bind _ = _
      rw [constructAt_at (List.replicate i none) x
        (List.replicate ((if v.size = 0 then 1 else 2 * v.size) - i - 1) none) _ _
        (replicate_split _ _ _ (by omega)) (by simp)]
      show (uninitCopyN v.data.slots 0 i _ 0).bind _ = _
      rw [uninitCopyN_at (l.take i) [] ((l.drop i).map some) []
        (some x :: List.replicate ((if v.size = 0 then 1 else 2 * v.size) - i - 1) none)
        _ _ _ _ _
        (by rw [hs']
            simp only [List.nil_append, List.append_nil]
            rw [← List.map_append, List.take_append_drop])
        (by simp only [List.nil_append, List.length_take]
            congr 2
            omega)
        (by simp)
        (by simp only [List.length_take]
            omega)
        (by simp)]
      show (uninitCopyN v.data.slots i (v.size - i) _ (i + 1)).bind _ = _
      rw [uninitCopyN_at (l.drop i) ((l.take i).map some) [] ((l.take i).map some ++ [some x])
        (List.replicate ((if v.size = 0 then 1 else 2 * v.size) - v.size - 1) none)
        _ _ _ _ _
        (by rw [hs']
            simp only [List.append_nil]
            rw [← List.map_append, List.take_append_drop])
        (by rw [show List.replicate ((if v.size = 0 then 1 else 2 * v.size) - i - 1)
                (none : Option α)
              = List.replicate (v.size - i) none
                ++ List.replicate ((if v.size = 0 then 1 else 2 * v.size) - v.size - 1) none by
            rw [List.append_replicate_replicate]
            congr 1
            omega]
            rw [show (v.size - i) = (l.drop i).length by simp [List.length_drop]; omega]
            simp)
        (by simp only [List.length_map, List.length_take]
            omega)
        (by simp only [List.length_drop]
            omega)
        (by simp only [List.length_append, List.length_map, List.length_take,
              List.length_cons, List.length_nil]
            omega)]
      show (destroyN v.data.slots 0 v.size).bind _ = _
      rw [destroyN_at l [] [] _ _ _ (by simpa using hs') (by simp) (by omega)]
      show some _ = _
      rw [hins]
      rw [show (if v.size = 0 then 1 else 2 * v.size) - v.size - 1
          = (if v.size = 0 then 1 else 2 * v.size) - (v.size + 1) by omega]
      simp [RawMemory.alloc]
    refine ⟨_, hrun, ⟨rfl, ?_, ?_⟩, rfl⟩
    · show (l.insertIdx i x).length = v.size + 1
      rw [hins]
      simp only [List.length_append, List.length_take, List.length_cons, List.length_drop]
      omega
    · show v.size + 1 ≤ if v.size = 0 then 1 else 2 * v.size
      omega
  · by_cases hie : v.size = i
    · -- spare capacity, insertion at the end
      have hlt : v.size < v.data.capacity := by omega
      have hs' : v.data.slots
          = l.map some ++ none :: List.replicate (v.data.capacity - v.size - 1) none := by
        rw [hs]
        rw [replicate_none_split_cons (v.data.capacity - v.size)
          (v.data.capacity - v.size - 1) (by omega)]
      have hrun : v.emplace i x a
          = some ⟨⟨v.data.address, v.data.capacity,
              (l.insertIdx i x).map some
                ++ List.replicate (v.data.capacity - (v.size + 1)) none⟩, v.size + 1⟩ := by
        unfold Vector.emplace
        rw [if_neg hc, if_neg (by omega : ¬ v.size ≠ i)]
        show (constructAt v.data.slots i x).bind _ = _
        rw [constructAt_at (l.map some) x
          (List.replicate (v.data.capacity - v.size - 1) none) _ _ hs' (by simp [hl]; omega)]
        show some _ = _
        rw [hins, show i = l.length by omega]
        simp only [List.take_length, List.drop_length, map_some_snoc]
        rw [show v.data.capacity - v.size - 1 = v.data.capacity - (v.size + 1) by omega]
      refine ⟨_, hrun, ⟨rfl, ?_, by show v.size + 1 ≤ v.data.capacity; omega⟩, rfl⟩
      show (l.insertIdx i x).length = v.size + 1
      rw [hins]
      simp only [List.length_append, List.length_take, List.length_cons, List.length_drop]
      omega
    · -- spare capacity, insertion strictly before the end
      have hlt : v.size < v.data.capacity := by omega
      have hipos : i < v.size := by omega
      have hs' : v.data.slots
          = l.map some ++ none :: List.replicate (v.data.capacity - v.size - 1) none := by
        rw [hs]
        rw [replicate_none_split_cons (v.data.capacity - v.size)
          (v.data.capacity - v.size - 1) (by omega)]
      obtain ⟨z, hz⟩ : ∃ z, l.drop (v.size - 1) = [z] := by
        apply List.length_eq_one.mp
        simp only [List.length_drop]
        omega
      have hlz : l = l.take (v.size - 1) ++ [z] := by
        conv_lhs => rw [← List.take_append_drop (v.size - 1) l]
        rw [hz]
      obtain ⟨y0, hy0⟩ : ∃ y0, (l.drop i).take 1 = [y0] := by
        apply List.length_eq_one.mp
        simp only [List.length_take, List.length_drop]
        omega
      have hread : readAt v.data.slots (v.size - 1) = some z := by
        apply readAt_at ((l.take (v.size - 1)).map some) z
          (none :: List.replicate (v.data.capacity - v.size - 1) none) v.data.slots
        · rw [hs']
          conv_lhs => rw [hlz]
          simp
        · simp only [List.length_map, List.length_take]
          omega
      have hcon : constructAt v.data.slots v.size z
          = some ((l ++ [z]).map some
              ++ List.replicate (v.data.capacity - v.size - 1) none) := by
        rw [constructAt_at (l.map some) z
          (List.replicate (v.data.capacity - v.size - 1) none) _ _ hs' (by simp [hl])]
        rw [map_some_snoc]
      have hshift : moveBackShift1
          ((l ++ [z]).map some ++ List.replicate (v.data.capacity - v.size - 1) none)
          i (v.size - 1 - i)
          = some ((l.take i).map some
              ++ (((l.drop i).take 1 ++ (l.drop i).take (v.size - 1 - i)).map some
                ++ (some z :: List.replicate (v.data.capacity - v.size - 1) none))) := by
        apply moveBackShift1_at (v.size - 1 - i) (l.drop i) ((l.take i).map some)
          (some z :: List.replicate (v.data.capacity - v.size - 1) none)
        · simp only [List.length_drop]
          omega
        · rw [show ((l ++ [z]).map some : List (Option α))
              = (l.take i).map some ++ ((l.drop i).map some ++ [some z]) by
            rw [show (l ++ [z] : List α) = l.take i ++ (l.drop i ++ [z]) by
              rw [← List.append_assoc, List.take_append_drop]]
            simp]
          simp
        · simp only [List.length_map, List.length_take]
          omega
        · rfl
      have hassign : assignAt ((l.take i).map some
          ++ (((l.drop i).take 1 ++ (l.drop i).take (v.size - 1 - i)).map some
            ++ (some z :: List.replicate (v.data.capacity - v.size - 1) none))) i x
          = some ((l.take i).map some
              ++ (some x :: (((l.drop i).take (v.size - 1 - i)).map some
                ++ (some z :: List.replicate (v.data.capacity - v.size - 1) none)))) := by
        apply assignAt_at ((l.take i).map some) y0 x
          (((l.drop i).take (v.size - 1 - i)).map some
            ++ (some z :: List.replicate (v.data.capacity - v.size - 1) none))
        · rw [hy0]
          simp
        · simp only [List.length_map, List.length_take]
          omega
      have hdropz : (l.drop i).take (v.size - 1 - i) ++ [z] = l.drop i := by
        have hdd : (l.drop i).drop (v.size - 1 - i) = [z] := by
          rw [List.drop_drop, show i + (v.size - 1 - i) = v.size - 1 by omega, hz]
        conv_rhs => rw [← List.take_append_drop (v.size - 1 - i) (l.drop i), hdd]
      have hrun : v.emplace i x a
          = some ⟨⟨v.data.address, v.data.capacity,
              (l.insertIdx i x).map some
                ++ List.replicate (v.data.capacity - (v.size + 1)) none⟩, v.size + 1⟩ := by
        unfold Vector.emplace
        rw [if_neg hc, if_pos (by omega : v.size ≠ i)]
        show (readAt v.data.slots (v.size - 1)).bind _ = _
        rw [hread]
        show (constructAt v.data.slots v.size z).bind _ = _
        rw [hcon]
        show (moveBackShift1 _ i (v.size - 1 - i)).bind _ = _
        rw [hshift]
        show (assignAt _ i x).bind _ = _
        rw [hassign]
        show some _ = _
        rw [hins]
        rw [show v.data.capacity - v.size - 1 = v.data.capacity - (v.size + 1) by omega]
        rw [show ((l.take i ++ x :: l.drop i).map some : List (Option α))
            = (l.take i).map some
              ++ (some x :: (((l.drop i).take (v.size - 1 - i)).map some ++ [some z])) by
          conv_lhs => rw [show (l.drop i : List α)
            = (l.drop i).take (v.size - 1 - i) ++ [z] from hdropz.symm]
          simp]
        simp
      refine ⟨_, hrun, ⟨rfl, ?_, by show v.size + 1 ≤ v.data.capacity; omega⟩, rfl⟩
      show (l.insertIdx i x).length = v.size + 1
      rw [hins]
      simp only [List.length_append, List.length_take, List.length_cons, List.length_drop]
      omega

/-! ### Concrete scenario states (claim C5) -/

def scenario3 : Option (Vector Nat) :=
  ((Vector.nil.emplaceBack 1 0).bind fun v => v.emplaceBack 2 1).bind fun v =>
    v.emplaceBack 3 2

def scenario4 : Option (Vector Nat) := scenario3.bind fun v => v.insert 1 9 3

def scenario5 : Option (Vector Nat) := scenario4.bind fun v => v.erase 0

def scenario6 : Option (Vector Nat) := scenario5.bind fun v => v.resize 5 4

def scenario8 : Option (Vector Nat) :=
  (scenario6.bind Vector.popBack).bind Vector.popBack

/-! ### Claim theorems -/

/-- **C1** (code_bug evidence).  In the growth path of `Emplace`, a failing
element copy/move in either sub-range relocation is caught by a
`catch (...)` handler that destroys the corresponding sub-range of the old
buffer and does **not** rethrow; control then reaches
`std::destroy_n(begin(), size_)`, which destroys those old elements a second
time.  In the checked model this is a lifecycle violation (`ExnRes.ub`), and
in particular the outcome is never `ExnRes.threw` — the failure does not
propagate to the caller as the claim requires.  Evaluated at the vector
`[10, 20]` (size = capacity = 2), emplacing `99` at index 1, with the
failure hitting element 0 of the first (resp. second) sub-range. -/
theorem c1_emplace_relocation_failure_swallowed :
    Vector.emplaceE (⟨⟨some 0, 2, [some 10, some 20]⟩, 2⟩ : Vector Nat) 1 99 7
      false (some 0) none = ExnRes.ub ∧
    Vector.emplaceE (⟨⟨some 0, 2, [some 10, some 20]⟩, 2⟩ : Vector Nat) 1 99 7
      false none (some 0) = ExnRes.ub ∧
    Vector.emplaceE (⟨⟨some 0, 2, [some 10, some 20]⟩, 2⟩ : Vector Nat) 1 99 7
      false none none
      = ExnRes.ok ⟨⟨some 7, 4, [some 10, some 99, some 20, none]⟩, 3⟩ := by
  decide

/-- **C2** (code_bug evidence).  `RawMemory` move-assignment
(`Swap(rhs); Deallocate(rhs.buffer_); rhs.capacity_ = 0;`) leaves the source
with capacity 0 but with the destination's old (freed, non-null) pointer
still stored in `buffer_`: the invariant `capacity == 0 ⇔ address == null`
is violated, contradicting the claim that the source is left null/empty. -/
theorem c2_raw_move_assign_leaves_dangling_address :
    (RawMemory.moveAssign (RawMemory.alloc (α := Nat) 1 0) (RawMemory.alloc 1 1)).2.capacity
      = 0 ∧
    (RawMemory.moveAssign (RawMemory.alloc (α := Nat) 1 0) (RawMemory.alloc 1 1)).2.address
      = some 0 ∧
    ¬ (RawMemory.moveAssign (RawMemory.alloc (α := Nat) 1 0) (RawMemory.alloc 1 1)).2.addrInv := by
  decide

/-- **C3** (code_bug evidence).  `Vector` move-assignment swaps the raw
buffers but not the sizes (`data_.Swap(rhs.data_); size_ = rhs.size_;
rhs.size_ = 0;`).  Move-assigning `[30]` into `[10, 20]` leaves the source
owning the destination's old buffer with its 2 live elements while its size
is 0, so running its destructor (`destroy_n(addr, 0)` then freeing the
block) leaks both elements: the live count no longer equals the length,
contradicting the claim. -/
theorem c3_move_assign_into_nonempty_leaks :
    (Vector.moveAssign (⟨⟨some 0, 2, [some 10, some 20]⟩, 2⟩ : Vector Nat)
      ⟨⟨some 1, 1, [some 30]⟩, 1⟩).2.size = 0 ∧
    (Vector.moveAssign (⟨⟨some 0, 2, [some 10, some 20]⟩, 2⟩ : Vector Nat)
      ⟨⟨some 1, 1, [some 30]⟩, 1⟩).2.live = 2 ∧
    (Vector.moveAssign (⟨⟨some 0, 2, [some 10, some 20]⟩, 2⟩ : Vector Nat)
      ⟨⟨some 1, 1, [some 30]⟩, 1⟩).2.destruct = some [some 10, some 20] ∧
    (Vector.moveAssign (⟨⟨some 0, 2, [some 10, some 20]⟩, 2⟩ : Vector Nat)
      ⟨⟨some 1, 1, [some 30]⟩, 1⟩).1.wfL [30] := by
  decide

/-- **C4** (confirmed).  Inserting `x` at any index `i ≤ Size()` and then
erasing at `i` restores the original element sequence (and size). -/
theorem c4_insert_then_erase_round_trip (v : Vector α) (l : List α) (i : Nat) (x : α)
    (a : Nat) (h : v.wfL l) (hi : i ≤ v.size) :
    ∃ w u, v.insert i x a = some w ∧ w.erase i = some u ∧
      u.seq = v.seq ∧ u.size = v.size := by
  obtain ⟨w, hw, hwwf, hwsz⟩ := v.emplace_spec l i x a h hi
  obtain ⟨u, hu, huwf, husz, _, _⟩ :=
    w.erase_spec (l.insertIdx i x) i hwwf (by omega)
  refine ⟨w, u, hw, hu, ?_, by omega⟩
  rw [Vector.wfL_seq u _ huwf, Vector.wfL_seq v l h, List.eraseIdx_insertIdx]

/-- Witness for C4 at the vector `[5, 6]`, inserting `7` at index 1. -/
theorem c4_insert_then_erase_round_trip_witness :
    ∃ w u, Vector.insert (⟨⟨some 0, 2, [some 5, some 6]⟩, 2⟩ : Vector Nat) 1 7 3 = some w ∧
      w.erase 1 = some u ∧
      u.seq = Vector.seq (⟨⟨some 0, 2, [some 5, some 6]⟩, 2⟩ : Vector Nat) ∧
      u.size = (⟨⟨some 0, 2, [some 5, some 6]⟩, 2⟩ : Vector Nat).size :=
  c4_insert_then_erase_round_trip (⟨⟨some 0, 2, [some 5, some 6]⟩, 2⟩ : Vector Nat)
    [5, 6] 1 7 3 (by decide) (by decide)

/-- **C5** (confirmed).  The concrete scenario: append 1, 2, 3 from empty,
insert 9 at position 1, erase at 0, resize to 5 (default `Nat` is 0), pop
twice. -/
theorem c5_concrete_scenario :
    scenario3.map (fun v => (v.seq, v.size)) = some ([1, 2, 3], 3) ∧
    scenario4.map Vector.seq = some [1, 9, 2, 3] ∧
    scenario5.map Vector.seq = some [9, 2, 3] ∧
    scenario6.map Vector.seq = some [9, 2, 3, 0, 0] ∧
    scenario8.map Vector.seq = some [9, 2, 3] := by
  decide

/-- **C6** (confirmed).  Copy-assigning a strictly shorter source (whose
length fits the destination's capacity) assigns over the destination's
prefix and destroys the trailing elements in place — no reallocation: the
buffer address and capacity are unchanged, the final size is the source's
size, and the elements equal the source's.  The element transfer uses
checked assignment (`copyN`), which succeeds only on already-live
destination slots, matching "assigns, not placement-constructs". -/
theorem c6_copy_assign_shrinking (d s : Vector α) (ld ls : List α) (a : Nat)
    (hd : d.wfL ld) (hs : s.wfL ls) (hlt : s.size < d.size) :
    ∃ w, d.copyAssign s a = some w ∧ w.size = s.size ∧ w.seq = s.seq ∧
      w.data.capacity = d.data.capacity ∧ w.data.address = d.data.address := by
  obtain ⟨hds, hdl, hdle⟩ := hd
  obtain ⟨hss, hsl, hsle⟩ := hs
  have hlc : s.size < d.data.capacity := by omega
  have hrun : d.copyAssign s a = some ⟨⟨d.data.address, d.data.capacity,
      ls.map some ++ List.replicate (d.data.capacity - s.size) none⟩, s.size⟩ := by
    unfold Vector.copyAssign
    rw [if_neg (by omega : ¬ s.size > d.data.capacity), if_neg (by omega : ¬ s.size ≥ d.size)]
    show (copyN s.data.slots 0 s.size d.data.slots 0).bind _ = _
    rw [copyN_at ls (ld.take s.size) []
      (List.replicate (s.data.capacity - s.size) none) []
      ((ld.drop s.size).map some ++ List.replicate (d.data.capacity - d.size) none)
      _ _ _ _ _
      (by simp only [List.length_take]
          omega)
      (by simpa using hss)
      (by rw [hds]
          simp only [List.nil_append]
          rw [show (ld.map some : List (Option α))
              = (ld.take s.size).map some ++ (ld.drop s.size).map some by
            rw [← List.map_append, List.take_append_drop]]
          rw [List.append_assoc])
      (by simp) (by omega) (by simp)]
    show (destroyN _ s.size (d.size - s.size)).bind _ = _
    rw [destroyN_at (ld.drop s.size) (ls.map some)
      (List.replicate (d.data.capacity - d.size) none) _ _ _
      (by simp)
      (by simp only [List.length_map]
          omega)
      (by simp only [List.length_drop]
          omega)]
    show some _ = _
    rw [List.append_replicate_replicate]
    rw [show (ld.drop s.size).length + (d.data.capacity - d.size)
        = d.data.capacity - s.size by simp only [List.length_drop]; omega]
  refine ⟨_, hrun, rfl, ?_, rfl, rfl⟩
  rw [Vector.wfL_seq s ls ⟨hss, hsl, hsle⟩]
  exact Vector.wfL_seq _ ls ⟨rfl, by simpa using hsl, by show s.size ≤ d.data.capacity; omega⟩

/-- Witness for C6: `[1, 2, 3]` (capacity 3) copy-assigned from `[9]`. -/
theorem c6_copy_assign_shrinking_witness :
    ∃ w, Vector.copyAssign (⟨⟨some 0, 3, [some 1, some 2, some 3]⟩, 3⟩ : Vector Nat)
        ⟨⟨some 1, 1, [some 9]⟩, 1⟩ 5 = some w ∧
      w.size = (⟨⟨some 1, 1, [some 9]⟩, 1⟩ : Vector Nat).size ∧
      w.seq = Vector.seq (⟨⟨some 1, 1, [some 9]⟩, 1⟩ : Vector Nat) ∧
      w.data.capacity = (⟨⟨some 0, 3, [some 1, some 2, some 3]⟩, 3⟩ : Vector Nat).data.capacity ∧
      w.data.address = (⟨⟨some 0, 3, [some 1, some 2, some 3]⟩, 3⟩ : Vector Nat).data.address :=
  c6_copy_assign_shrinking (⟨⟨some 0, 3, [some 1, some 2, some 3]⟩, 3⟩ : Vector Nat)
    ⟨⟨some 1, 1, [some 9]⟩, 1⟩ [1, 2, 3] [9] 5 (by decide) (by decide) (by decide)

/-- **C7** (confirmed).  `Reserve(k)` never decreases the capacity; it is a
no-op for `k ≤ Capacity()`, and for `k > Capacity()` afterwards
`Capacity() ≥ k` (in fact `= k`) with the size and element sequence
unchanged. -/
theorem c7_reserve_frame (v : Vector α) (l : List α) (k a : Nat) (h : v.wfL l) :
    ∃ w, v.reserve k a = some w ∧ v.data.capacity ≤ w.data.capacity ∧
      (k ≤ v.data.capacity → w = v) ∧
      (v.data.capacity < k → k ≤ w.data.capacity ∧ w.size = v.size ∧ w.seq = v.seq) := by
  obtain ⟨w, hw, hca, hsz, hwf, hno, hcap⟩ := v.reserve_spec l k a h
  refine ⟨w, hw, hca, hno, fun hlt => ⟨by rw [hcap hlt], hsz, ?_⟩⟩
  rw [Vector.wfL_seq w l hwf, Vector.wfL_seq v l h]

/-- Witness for C7 at `[4]` (capacity 1), reserving 3. -/
theorem c7_reserve_frame_witness :
    ∃ w, Vector.reserve (⟨⟨some 0, 1, [some 4]⟩, 1⟩ : Vector Nat) 3 2 = some w ∧
      (⟨⟨some 0, 1, [some 4]⟩, 1⟩ : Vector Nat).data.capacity ≤ w.data.capacity ∧
      (3 ≤ (⟨⟨some 0, 1, [some 4]⟩, 1⟩ : Vector Nat).data.capacity
        → w = (⟨⟨some 0, 1, [some 4]⟩, 1⟩ : Vector Nat)) ∧
      ((⟨⟨some 0, 1, [some 4]⟩, 1⟩ : Vector Nat).data.capacity < 3
        → 3 ≤ w.data.capacity ∧ w.size = (⟨⟨some 0, 1, [some 4]⟩, 1⟩ : Vector Nat).size ∧
          w.seq = Vector.seq (⟨⟨some 0, 1, [some 4]⟩, 1⟩ : Vector Nat)) :=
  c7_reserve_frame (⟨⟨some 0, 1, [some 4]⟩, 1⟩ : Vector Nat) [4] 3 2 (by decide)

/-- **C8** (confirmed).  When `length == capacity`, an append through
`EmplaceBack` or `PushBack` grows the capacity to exactly
`max(1, 2 * capacity)`. -/
theorem c8_append_growth_factor (v : Vector α) (l : List α) (x : α) (a : Nat)
    (h : v.wfL l) (hc : v.size = v.data.capacity) :
    ∃ w u, v.emplaceBack x a = some w ∧ w.data.capacity = max 1 (2 * v.data.capacity) ∧
      v.pushBack x a = some u ∧ u.data.capacity = max 1 (2 * v.data.capacity) := by
  obtain ⟨w, hw, _, _, hcap, _⟩ := v.emplaceBack_spec l x a h
  have hc2 : w.data.capacity = max 1 (2 * v.data.capacity) := by
    rw [hcap, if_pos hc, ← hc]
    by_cases h0 : v.size = 0
    · simp [h0]
    · simp only [if_neg h0]
      omega
  refine ⟨w, w, hw, hc2, ?_, hc2⟩
  rw [Vector.pushBack_eq]
  exact hw

/-- Witness for C8 at `[4]` with size = capacity = 1. -/
theorem c8_append_growth_factor_witness :
    ∃ w u, Vector.emplaceBack (⟨⟨some 0, 1, [some 4]⟩, 1⟩ : Vector Nat) 5 1 = some w ∧
      w.data.capacity
        = max 1 (2 * (⟨⟨some 0, 1, [some 4]⟩, 1⟩ : Vector Nat).data.capacity) ∧
      Vector.pushBack (⟨⟨some 0, 1, [some 4]⟩, 1⟩ : Vector Nat) 5 1 = some u ∧
      u.data.capacity
        = max 1 (2 * (⟨⟨some 0, 1, [some 4]⟩, 1⟩ : Vector Nat).data.capacity) :=
  c8_append_growth_factor (⟨⟨some 0, 1, [some 4]⟩, 1⟩ : Vector Nat) [4] 5 1
    (by decide) (by decide)

/-- **C9** (confirmed).  In the growth path of `EmplaceBack` the new element
is constructed into its final slot of the new buffer before any migration:
if that construction throws, the outcome is `threw v` with the vector
bitwise equal to its pre-call state, whatever the migration oracle would
have done (the migration is never reached); on success the length is
incremented to `size + 1` and the new element sits at the end. -/
theorem c9_emplace_back_growth_new_element_first (v : Vector α) (l : List α) (x : α)
    (a : Nat) (mig : Option Nat) (h : v.wfL l) (hc : v.size = v.data.capacity) :
    v.emplaceBackE x a true mig = ExnRes.threw v ∧
    ∃ w, v.emplaceBackE x a false none = ExnRes.ok w ∧ w.size = v.size + 1 ∧
      w.wfL (l ++ [x]) := by
  obtain ⟨hs, hl, hle⟩ := h
  have hs' : v.data.slots = l.map some := by
    rw [hs, show v.data.capacity - v.size = 0 by omega]
    simp
  have hlt : v.size < (if v.size = 0 then 1 else 2 * v.size) := by
    by_cases h0 : v.size = 0
    · simp [h0]
    · simp [h0]
      omega
  constructor
  · unfold Vector.emplaceBackE
    rw [if_pos hc]
    rfl
  · refine ⟨⟨⟨(RawMemory.alloc (α := α) (if v.size = 0 then 1 else 2 * v.size) a).address,
      if v.size = 0 then 1 else 2 * v.size,
      (l ++ [x]).map some
        ++ List.replicate ((if v.size = 0 then 1 else 2 * v.size) - (v.size + 1)) none⟩,
      v.size + 1⟩, ?_, rfl, rfl, by simp [hl],
      by show v.size + 1 ≤ if v.size = 0 then 1 else 2 * v.size; omega⟩
    unfold Vector.emplaceBackE
    rw [if_pos hc]
    show (match constructAt (List.replicate (if v.size = 0 then 1 else 2 * v.size) none)
        v.size x with
      | none => ExnRes.ub
      | some s1 =>
        match uninitCopyNE v.data.slots 0 v.size s1 0 none with
        | none => ExnRes.ub
        | some (Except.error _) => ExnRes.threw v
        | some (Except.ok s2) =>
          match destroyN v.data.slots 0 v.size with
          | none => ExnRes.ub
          | some _ =>
            ExnRes.ok ⟨⟨(RawMemory.alloc (α := α)
                (if v.size = 0 then 1 else 2 * v.size) a).address,
              (RawMemory.alloc (α := α) (if v.size = 0 then 1 else 2 * v.size) a).capacity,
              s2⟩, v.size + 1⟩) = _
    rw [constructAt_at (List.replicate v.size none) x
      (List.replicate ((if v.size = 0 then 1 else 2 * v.size) - v.size - 1) none) _ _
      (replicate_split _ _ _ hlt) (by simp)]
    show (match uninitCopyNE v.data.slots 0 v.size
        (List.replicate v.size none
          ++ some x
            :: List.replicate ((if v.size = 0 then 1 else 2 * v.size) - v.size - 1) none)
        0 none with
      | none => ExnRes.ub
      | some (Except.error _) => ExnRes.threw v
      | some (Except.ok s2) =>
        match destroyN v.data.slots 0 v.size with
        | none => ExnRes.ub
        | some _ =>
          ExnRes.ok ⟨⟨(RawMemory.alloc (α := α)
              (if v.size = 0 then 1 else 2 * v.size) a).address,
            (RawMemory.alloc (α := α) (if v.size = 0 then 1 else 2 * v.size) a).capacity,
            s2⟩, v.size + 1⟩) = _
    unfold uninitCopyNE
    rw [uninitCopyN_at l [] [] []
      (some x :: List.replicate ((if v.size = 0 then 1 else 2 * v.size) - v.size - 1) none)
      _ _ _ _ _ (by simpa using hs') (by simp [hl]) (by simp) (by omega) (by simp)]
    show (match destroyN v.data.slots 0 v.size with
      | none => ExnRes.ub
      | some _ =>
        ExnRes.ok ⟨⟨(RawMemory.alloc (α := α)
            (if v.size = 0 then 1 else 2 * v.size) a).address,
          (RawMemory.alloc (α := α) (if v.size = 0 then 1 else 2 * v.size) a).capacity,
          [] ++ (l.map some ++ (some x :: List.replicate
            ((if v.size = 0 then 1 else 2 * v.size) - v.size - 1) none))⟩,
          v.size + 1⟩) = _
    rw [destroyN_at l [] [] _ _ _ (by simpa using hs') (by simp) (by omega)]
    show ExnRes.ok _ = _
    rw [show (if v.size = 0 then 1 else 2 * v.size) - v.size - 1
        = (if v.size = 0 then 1 else 2 * v.size) - (v.size + 1) by omega]
    simp [RawMemory.alloc]

/-- Witness for C9 at `[4]` with size = capacity = 1, migration oracle set
to fail at element 0. -/
theorem c9_emplace_back_growth_new_element_first_witness :
    Vector.emplaceBackE (⟨⟨some 0, 1, [some 4]⟩, 1⟩ : Vector Nat) 5 1 true (some 0)
      = ExnRes.threw (⟨⟨some 0, 1, [some 4]⟩, 1⟩ : Vector Nat) ∧
    ∃ w, Vector.emplaceBackE (⟨⟨some 0, 1, [some 4]⟩, 1⟩ : Vector Nat) 5 1 false none
        = ExnRes.ok w ∧ w.size = (⟨⟨some 0, 1, [some 4]⟩, 1⟩ : Vector Nat).size + 1 ∧
      w.wfL ([4] ++ [5]) :=
  c9_emplace_back_growth_new_element_first (⟨⟨some 0, 1, [some 4]⟩, 1⟩ : Vector Nat)
    [4] 5 1 (some 0) (by decide) (by decide)

/-- **C10** (confirmed).  After move-construction the source vector is
field-for-field a default-constructed vector: null address, capacity 0,
size 0 — and the destination took over the original verbatim. -/
theorem c10_moved_from_vector_is_default_constructed (v : Vector α) :
    (Vector.moveCtor v).2 = Vector.nil ∧ (Vector.moveCtor v).1 = v ∧
    (Vector.moveCtor v).2.size = 0 ∧ (Vector.moveCtor v).2.capacity = 0 ∧
    (Vector.moveCtor v).2.data.address = none :=
  ⟨rfl, rfl, rfl, rfl, rfl⟩

end CppVec
